import Mathlib

/-!
Verification of the KOS control-plane coordination logic: a shallow embedding
of the IPAM controller, the Connection Agent's virtual-network state tables,
the IPLock naming scheme, and the object-store write-stamping strategies,
together with theorems settling the specification claims.

Go strings are modelled as Lean `String`s (byte-wise Go comparison agrees with
code-point comparison on UTF-8), `metav1.MicroTime` and `time.Time` values as
`Nat`, and 32-bit unsigned arithmetic as `Nat` arithmetic with explicit
`% 2^32` where Go could wrap.
-/

/-! ## ExtendedObjectMeta write sets (apis/network/types.go) -/

/-- `ObjectWrite` describes a write to part of an object: the section name and
the server time at which the write was recorded (Go `metav1.MicroTime`,
modelled as `Nat`; the Go zero value is `0`). -/
structure ObjectWrite where
  sec : String
  serverTime : Nat
  deriving DecidableEq, Repr, Inhabited

/-- `WriteSet` represents a map from section to time (Go `[]ObjectWrite`). -/
abbrev WriteSet := List ObjectWrite

/-- Go `WriteSet.GetWrite`: returns the write to the given section and a bool
indicating whether there is one; the Go zero `ObjectWrite` is `⟨"", 0⟩`. -/
def WriteSet.GetWrite (writes : WriteSet) (sec : String) : ObjectWrite × Bool :=
  match writes with
  | [] => (⟨"", 0⟩, false)
  | wr :: rest => if wr.sec = sec then (wr, true) else WriteSet.GetWrite rest sec

/-- Go `WriteSet.GetServerWriteTime`: the server time of the write to the given
section, or zero if there was none. -/
def WriteSet.GetServerWriteTime (writes : WriteSet) (sec : String) : Nat :=
  (writes.GetWrite sec).1.serverTime

/-- Go `WriteSet.SetWrite`: produces a revised slice that includes the given
write.  The Go loop finds the first index `i` with `writes[i].Section ==
section` (or `i = n`); if not found the new write is prepended to the whole
slice, otherwise it is prepended to the slice with entry `i` removed. -/
def WriteSet.SetWrite (writes : WriteSet) (sec : String) (serverTime : Nat) : WriteSet :=
  let n := writes.length
  let i := writes.findIdx (fun wr => wr.sec = sec)
  if i = n then
    ⟨sec, serverTime⟩ :: writes
  else
    ⟨sec, serverTime⟩ :: (writes.take i ++ writes.drop (i + 1))

/-! ## Subnet data model and store strategies (registry/network/subnet strategy) -/

/-- Subnet spec: IPv4 CIDR string and VNI (uint32, valid range [1,2097151]). -/
structure SubnetSpec where
  ipv4 : String
  vni : Nat
  deriving DecidableEq, Repr

/-- Subnet status: `validated` flag and validator error strings. -/
structure SubnetStatus where
  validated : Bool
  errors : List String
  deriving DecidableEq, Repr

/-- The Go zero `network.SubnetStatus{}`. -/
def SubnetStatus.empty : SubnetStatus := ⟨false, []⟩

/-- The parts of a `network.Subnet` object that the store strategies touch. -/
structure Subnet where
  spec : SubnetSpec
  status : SubnetStatus
  writes : WriteSet
  deriving DecidableEq, Repr

/-- Go `SliceOfStringEqual` from the subnet strategy. -/
def SliceOfStringEqual (x y : List String) : Bool :=
  match x, y with
  | [], [] => true
  | a :: xs, b :: ys => a = b && SliceOfStringEqual xs ys
  | _, _ => false

/-- Section names for Subnet extended metadata. -/
def SubnetSectionSpec : String := "spec"

/-- Section name of the Subnet status write-section. -/
def SubnetSectionStatus : String := "status"

/-- Go `subnetStrategy.PrepareForCreate`: resets extended metadata (so the
write set starts empty), stamps the spec section with the current server time
`now`, and resets the status to the zero `SubnetStatus`. -/
def subnetPrepareForCreate (subnet : Subnet) (now : Nat) : Subnet :=
  { subnet with
    writes := WriteSet.SetWrite [] SubnetSectionSpec now
    status := SubnetStatus.empty }

/-- Go `subnetStatusStrategy.PrepareForUpdate`: copies the spec back from the
old object, starts from the old object's write set, and stamps the status
section with the current server time iff `status.validated` or `status.errors`
changed. -/
def subnetStatusPrepareForUpdate (newSubnet oldSubnet : Subnet) (now : Nat) : Subnet :=
  let n1 : Subnet := { newSubnet with
    spec := oldSubnet.spec
    writes := oldSubnet.writes }
  if n1.status.validated ≠ oldSubnet.status.validated
      ∨ ¬ (SliceOfStringEqual n1.status.errors oldSubnet.status.errors = true) then
    { n1 with writes := n1.writes.SetWrite SubnetSectionStatus now }
  else
    n1

/-! ## IPLock naming (ipam controller: makeIPLockName2 / parseIPLockName) -/

/-- The ASCII digit character for `d` (Go emits `'0' + d`). -/
def digitChar (d : Nat) : Char := Char.ofNat (48 + d)

/-- Decimal rendering of a natural number, least significant digit
accumulated first (the fuel argument makes the recursion structural;
`fuel > n` always suffices).  Models Go `fmt.Sprintf("%d", n)` /
`strconv.FormatUint`. -/
def decCharsAux : Nat → Nat → List Char → List Char
  | 0, _, acc => acc
  | fuel + 1, n, acc =>
    let acc2 := digitChar (n % 10) :: acc
    if n < 10 then acc2 else decCharsAux fuel (n / 10) acc2

/-- The decimal digit string of `n` (no sign, no leading zeros). -/
def decChars (n : Nat) : List Char := decCharsAux (n + 1) n []

/-- Go `strings.Split(s, "-")` on the character list of `s`. -/
def splitDash : List Char → List (List Char)
  | [] => [[]]
  | c :: cs =>
    if c = '-' then [] :: splitDash cs
    else
      match splitDash cs with
      | [] => [[c]]
      | p :: ps => (c :: p) :: ps

/-- Go `strconv.ParseUint(s, 10, bitSize)`: succeeds exactly on a non-empty
all-digit string whose value fits in `bitSize` bits (Go returns an error for
an empty string, a non-digit character, and on range overflow). -/
def parseUintDec (bitSize : Nat) (s : List Char) : Option Nat :=
  if s = [] then none
  else if s.all (fun c => c.isDigit) then
    if s.foldl (fun a c => a * 10 + (c.toNat - 48)) 0 < 2 ^ bitSize then
      some (s.foldl (fun a c => a * 10 + (c.toNat - 48)) 0)
    else none
  else none

/-- Go `makeIPLockName2(VNI, ip)`:
`fmt.Sprintf("v1-%d-%d-%d-%d-%d", VNI, ipv4[0], ipv4[1], ipv4[2], ipv4[3])`
with the four octets of the IPv4 address in big-endian order. -/
def makeIPLockName2 (vni b0 b1 b2 b3 : Nat) : String :=
  String.mk (['v', '1'] ++ '-' ::
    (decChars vni ++ '-' ::
      (decChars b0 ++ '-' ::
        (decChars b1 ++ '-' ::
          (decChars b2 ++ '-' :: decChars b3)))))

/-- Go `parseIPLockName`: splits on `'-'`, requires exactly 6 parts with the
first equal to `"v1"`, parses the VNI as a decimal number of at most 21 bits
and each octet as a decimal number of at most 8 bits, and accumulates the
address as `addrU = ((b0*256+b1)*256+b2)*256+b3`. -/
def parseIPLockName (lockName : String) : Option (Nat × Nat) :=
  match splitDash lockName.data with
  | [p0, p1, p2, p3, p4, p5] =>
    if p0 = ['v', '1'] then
      match parseUintDec 21 p1, parseUintDec 8 p2, parseUintDec 8 p3,
          parseUintDec 8 p4, parseUintDec 8 p5 with
      | some vni, some b0, some b1, some b2, some b3 =>
        some (vni, ((b0 * 256 + b1) * 256 + b2) * 256 + b3)
      | _, _, _, _, _ => none
    else none
  | _ => none

/-- The well-formedness predicate the spec describes for lock names: exactly
six `'-'`-separated parts, the first is `"v1"`, the VNI part is a decimal
number fitting in 21 bits, each octet part a decimal number fitting in 8
bits. -/
def IsDecimalLt (bound : Nat) (s : List Char) : Prop :=
  s ≠ [] ∧ (∀ c ∈ s, c.isDigit = true) ∧
    s.foldl (fun a c => a * 10 + (c.toNat - 48)) 0 < bound

/-- A lock name the spec's parser clause accepts. -/
def LockNameWellFormed (s : String) : Prop :=
  ∃ p1 p2 p3 p4 p5,
    splitDash s.data = [['v', '1'], p1, p2, p3, p4, p5] ∧
    IsDecimalLt (2 ^ 21) p1 ∧ IsDecimalLt (2 ^ 8) p2 ∧
    IsDecimalLt (2 ^ 8) p3 ∧ IsDecimalLt (2 ^ 8) p4 ∧ IsDecimalLt (2 ^ 8) p5

/-! ### Lemmas about decimal rendering and splitting -/

lemma digitChar_toNat (d : Nat) (h : d < 10) : (digitChar d).toNat = 48 + d := by
  interval_cases d <;> decide

lemma digitChar_isDigit (d : Nat) (h : d < 10) : (digitChar d).isDigit = true := by
  interval_cases d <;> decide

lemma decCharsAux_spec (fuel : Nat) : ∀ n acc, n < fuel →
    ∃ pre, decCharsAux fuel n acc = pre ++ acc ∧ pre ≠ [] ∧
      (∀ c ∈ pre, c.isDigit = true) ∧
      ∀ a, pre.foldl (fun a c => a * 10 + (c.toNat - 48)) a =
        a * 10 ^ pre.length + n := by
  induction fuel with
  | zero => intro n acc h; omega
  | succ fuel ih =>
    intro n acc h
    by_cases h10 : n < 10
    · refine ⟨[digitChar (n % 10)], ?_, by simp, ?_, ?_⟩
      · simp [decCharsAux, h10]
      · intro c hc
        rw [List.mem_singleton] at hc
        subst hc
        exact digitChar_isDigit _ (Nat.mod_lt _ (by norm_num))
      · intro a
        simp only [List.foldl, List.length_singleton]
        rw [digitChar_toNat _ (Nat.mod_lt _ (by norm_num))]
        have hmod : n % 10 = n := Nat.mod_eq_of_lt h10
        omega
    · have hstep : n / 10 < n := Nat.div_lt_self (by omega) (by norm_num)
      have hrec : n / 10 < fuel := by omega
      obtain ⟨pre, heq, hne, hdig, hfold⟩ := ih (n / 10) (digitChar (n % 10) :: acc) hrec
      refine ⟨pre ++ [digitChar (n % 10)], ?_, by simp [hne], ?_, ?_⟩
      · simp only [decCharsAux, if_neg h10]
        rw [heq]
        simp
      · intro c hc
        rcases List.mem_append.mp hc with hm | hm
        · exact hdig c hm
        · rw [List.mem_singleton] at hm
          subst hm
          exact digitChar_isDigit _ (Nat.mod_lt _ (by norm_num))
      · intro a
        rw [List.foldl_append]
        simp only [List.foldl, List.length_append, List.length_singleton]
        rw [hfold a, digitChar_toNat _ (Nat.mod_lt _ (by norm_num))]
        have hdm : 10 * (n / 10) + n % 10 = n := Nat.div_add_mod n 10
        have hpow : 10 ^ (pre.length + 1) = 10 ^ pre.length * 10 := pow_succ 10 pre.length
        have : (a * 10 ^ pre.length + n / 10) * 10 + (48 + n % 10 - 48) =
            a * (10 ^ pre.length * 10) + (10 * (n / 10) + n % 10) := by ring_nf; omega
        rw [this, hdm, ← hpow]

lemma decChars_spec (n : Nat) : decChars n ≠ [] ∧
    (∀ c ∈ decChars n, c.isDigit = true) ∧
    ∀ a, (decChars n).foldl (fun a c => a * 10 + (c.toNat - 48)) a =
      a * 10 ^ (decChars n).length + n := by
  obtain ⟨pre, heq, hne, hdig, hfold⟩ := decCharsAux_spec (n + 1) n [] (by omega)
  rw [List.append_nil] at heq
  rw [decChars, heq]
  exact ⟨hne, hdig, hfold⟩

lemma decChars_no_dash (n : Nat) : '-' ∉ decChars n := by
  intro hmem
  have := (decChars_spec n).2.1 '-' hmem
  simp at this

lemma parseUintDec_decChars (bitSize n : Nat) (h : n < 2 ^ bitSize) :
    parseUintDec bitSize (decChars n) = some n := by
  obtain ⟨hne, hdig, hfold⟩ := decChars_spec n
  have hval : (decChars n).foldl (fun a c => a * 10 + (c.toNat - 48)) 0 = n := by
    rw [hfold 0]; simp
  rw [parseUintDec, if_neg hne, if_pos (List.all_eq_true.mpr hdig), hval, if_pos h]

lemma splitDash_ne_nil (xs : List Char) : splitDash xs ≠ [] := by
  cases xs with
  | nil => simp [splitDash]
  | cons c cs =>
    simp only [splitDash]
    split
    · simp
    · split <;> simp

lemma splitDash_no_dash (xs : List Char) (h : '-' ∉ xs) : splitDash xs = [xs] := by
  induction xs with
  | nil => rfl
  | cons c cs ih =>
    have hc : ¬ (c = '-') := by
      intro hcontra; exact h (hcontra ▸ List.mem_cons_self c cs)
    have hcs : '-' ∉ cs := fun hm => h (List.mem_cons_of_mem c hm)
    simp only [splitDash, if_neg hc, ih hcs]

lemma splitDash_append (xs ys : List Char) (h : '-' ∉ xs) :
    splitDash (xs ++ '-' :: ys) = xs :: splitDash ys := by
  induction xs with
  | nil =>
    simp [splitDash]
  | cons c cs ih =>
    have hc : ¬ (c = '-') := by
      intro hcontra; exact h (hcontra ▸ List.mem_cons_self c cs)
    have hcs : '-' ∉ cs := fun hm => h (List.mem_cons_of_mem c hm)
    simp only [List.cons_append, splitDash, if_neg hc, List.append_eq, ih hcs]

lemma parseUintDec_isSome (bitSize : Nat) (s : List Char) :
    (parseUintDec bitSize s).isSome = true ↔ IsDecimalLt (2 ^ bitSize) s := by
  rw [parseUintDec, IsDecimalLt]
  split_ifs with h1 h2 h3 <;> simp_all [List.all_eq_true]

/-- C1: for every VNI in [1, 2097151] and IPv4 address octets, parsing the
IPLock name built by `makeIPLockName2` returns exactly the original pair (the
address as the big-endian value of the four octets), and `parseIPLockName`
accepts exactly the strings of the form
`v1-<decimalVNI>-<b0>-<b1>-<b2>-<b3>`: six `'-'`-separated parts, first part
`"v1"`, VNI part a decimal number fitting in 21 bits, octet parts decimal
numbers fitting in 8 bits; every other string is rejected. -/
theorem iplock_name_roundtrip (vni b0 b1 b2 b3 : Nat)
    (hv1 : 1 ≤ vni) (hv2 : vni ≤ 2097151)
    (hb0 : b0 < 256) (hb1 : b1 < 256) (hb2 : b2 < 256) (hb3 : b3 < 256) :
    parseIPLockName (makeIPLockName2 vni b0 b1 b2 b3)
        = some (vni, b0 * 2 ^ 24 + b1 * 2 ^ 16 + b2 * 2 ^ 8 + b3)
    ∧ ∀ s : String, (parseIPLockName s).isSome = true ↔ LockNameWellFormed s := by
  constructor
  · have hv : '-' ∉ (['v', '1'] : List Char) := by decide
    have hdata : (makeIPLockName2 vni b0 b1 b2 b3).data =
        ['v', '1'] ++ '-' :: (decChars vni ++ '-' :: (decChars b0 ++ '-' ::
          (decChars b1 ++ '-' :: (decChars b2 ++ '-' :: decChars b3)))) := rfl
    have hsplit : splitDash (makeIPLockName2 vni b0 b1 b2 b3).data =
        [['v', '1'], decChars vni, decChars b0, decChars b1, decChars b2,
          decChars b3] := by
      rw [hdata, splitDash_append _ _ hv,
        splitDash_append _ _ (decChars_no_dash vni),
        splitDash_append _ _ (decChars_no_dash b0),
        splitDash_append _ _ (decChars_no_dash b1),
        splitDash_append _ _ (decChars_no_dash b2),
        splitDash_no_dash _ (decChars_no_dash b3)]
    have hvni : vni < 2 ^ 21 := by norm_num; omega
    unfold parseIPLockName
    rw [hsplit]
    simp only [parseUintDec_decChars 21 vni hvni,
      parseUintDec_decChars 8 b0 (by norm_num; omega),
      parseUintDec_decChars 8 b1 (by norm_num; omega),
      parseUintDec_decChars 8 b2 (by norm_num; omega),
      parseUintDec_decChars 8 b3 (by norm_num; omega)]
    norm_num
    ring
  · intro s
    constructor
    · intro hsome
      unfold parseIPLockName at hsome
      split at hsome
      case h_2 => simp at hsome
      case h_1 p0 p1 p2 p3 p4 p5 heq =>
        split at hsome
        case isFalse => simp at hsome
        case isTrue hp0 =>
          subst hp0
          cases hq1 : parseUintDec 21 p1 <;> rw [hq1] at hsome
          case none => simp at hsome
          case some v1 =>
          cases hq2 : parseUintDec 8 p2 <;> rw [hq2] at hsome
          case none => simp at hsome
          case some w2 =>
          cases hq3 : parseUintDec 8 p3 <;> rw [hq3] at hsome
          case none => simp at hsome
          case some w3 =>
          cases hq4 : parseUintDec 8 p4 <;> rw [hq4] at hsome
          case none => simp at hsome
          case some w4 =>
          cases hq5 : parseUintDec 8 p5 <;> rw [hq5] at hsome
          case none => simp at hsome
          case some w5 =>
          exact ⟨p1, p2, p3, p4, p5, heq,
            (parseUintDec_isSome 21 p1).mp (by rw [hq1]; rfl),
            (parseUintDec_isSome 8 p2).mp (by rw [hq2]; rfl),
            (parseUintDec_isSome 8 p3).mp (by rw [hq3]; rfl),
            (parseUintDec_isSome 8 p4).mp (by rw [hq4]; rfl),
            (parseUintDec_isSome 8 p5).mp (by rw [hq5]; rfl)⟩
    · rintro ⟨p1, p2, p3, p4, p5, hsp, h1, h2, h3, h4, h5⟩
      obtain ⟨w1, e1⟩ := Option.isSome_iff_exists.mp ((parseUintDec_isSome 21 p1).mpr h1)
      obtain ⟨w2, e2⟩ := Option.isSome_iff_exists.mp ((parseUintDec_isSome 8 p2).mpr h2)
      obtain ⟨w3, e3⟩ := Option.isSome_iff_exists.mp ((parseUintDec_isSome 8 p3).mpr h3)
      obtain ⟨w4, e4⟩ := Option.isSome_iff_exists.mp ((parseUintDec_isSome 8 p4).mpr h4)
      obtain ⟨w5, e5⟩ := Option.isSome_iff_exists.mp ((parseUintDec_isSome 8 p5).mpr h5)
      unfold parseIPLockName
      rw [hsp]
      simp [e1, e2, e3, e4, e5]

/-- Witness for C1 at VNI 7 and IP 192.168.0.5. -/
theorem iplock_name_roundtrip_witness :
    parseIPLockName (makeIPLockName2 7 192 168 0 5)
      = some (7, 192 * 2 ^ 24 + 168 * 2 ^ 16 + 0 * 2 ^ 8 + 5) :=
  (iplock_name_roundtrip 7 192 168 0 5 (by decide) (by decide) (by decide)
    (by decide) (by decide) (by decide)).1

/-! ## IPAM address-pick bounds (pickAndLockAddress, first lines) -/

/-- The first step of Go `IPAMController.pickAndLockAddress`: starting from
`addrMin, addrMax := subnetBaseU, subnetLastU`, if `addrMax - addrMin >= 4`
(uint32 arithmetic, hence the explicit `% 2^32`) the bounds are narrowed to
`subnetBaseU+2, subnetLastU-1`; the result is the range handed to the VNI
address cache's `AddOneInRange`. -/
def pickAndLockBounds (subnetBaseU subnetLastU : Nat) : Nat × Nat :=
  if 4 ≤ (subnetLastU + 2 ^ 32 - subnetBaseU) % 2 ^ 32 then
    ((subnetBaseU + 2) % 2 ^ 32, (subnetLastU + 2 ^ 32 - 1) % 2 ^ 32)
  else
    (subnetBaseU, subnetLastU)

/-- C2: for a subnet range `[baseU, lastU]` the reconciler narrows the range
handed to the address cache to `[baseU+2, lastU-1]` exactly when
`lastU - baseU ≥ 4` (range of at least 5 addresses) and uses the full range
otherwise; in particular a subnet of size exactly 4 (`lastU - baseU = 3`)
keeps the full range, so all 4 addresses are usable. -/
theorem ipam_pick_bounds (baseU lastU : Nat) (hle : baseU ≤ lastU)
    (hlt : lastU < 2 ^ 32) :
    pickAndLockBounds baseU lastU =
      (if 4 ≤ lastU - baseU then (baseU + 2, lastU - 1) else (baseU, lastU))
    ∧ (lastU - baseU = 3 → pickAndLockBounds baseU lastU = (baseU, lastU)) := by
  have hmod : (lastU + 2 ^ 32 - baseU) % 2 ^ 32 = lastU - baseU := by
    have h1 : lastU + 2 ^ 32 - baseU = (lastU - baseU) + 2 ^ 32 := by omega
    rw [h1, Nat.add_mod_right]
    exact Nat.mod_eq_of_lt (by omega)
  have hmain : pickAndLockBounds baseU lastU =
      (if 4 ≤ lastU - baseU then (baseU + 2, lastU - 1) else (baseU, lastU)) := by
    rw [pickAndLockBounds, hmod]
    split_ifs with h
    · have hb2 : (baseU + 2) % 2 ^ 32 = baseU + 2 := Nat.mod_eq_of_lt (by omega)
      have hl1 : (lastU + 2 ^ 32 - 1) % 2 ^ 32 = lastU - 1 := by
        have h2 : lastU + 2 ^ 32 - 1 = (lastU - 1) + 2 ^ 32 := by omega
        rw [h2, Nat.add_mod_right]
        exact Nat.mod_eq_of_lt (by omega)
      rw [hb2, hl1]
    · rfl
  refine ⟨hmain, fun h3 => ?_⟩
  rw [hmain, if_neg (by omega)]

/-- Witness for C2 at the size-4 subnet [10, 13]. -/
theorem ipam_pick_bounds_witness : pickAndLockBounds 10 13 = (10, 13) :=
  (ipam_pick_bounds 10 13 (by decide) (by decide)).2 (by decide)

/-! ## ParsedLock and lock lists (ipam controller) -/

/-- Go `ParsedLock`: the parsed characterization of an IPLock object.
`objPresent` models `Obj != nil` (whether the struct carries a pointer to the
API object); the Go zero `ParsedLock{}` is the default value. -/
structure ParsedLock where
  ns : String := ""
  name : String := ""
  VNI : Nat := 0
  addrU : Nat := 0
  UID : String := ""
  CreationTime : Nat := 0
  objPresent : Bool := false
  deriving DecidableEq, Repr, Inhabited

/-- Go `ParsedLock.Equal`: compares VNI, UID, CreationTime and addrU. -/
def ParsedLock.Equal (x y : ParsedLock) : Bool :=
  x.VNI = y.VNI && x.UID = y.UID && x.CreationTime = y.CreationTime
    && x.addrU = y.addrU

/-- Go `ParsedLock.IsBetterThan`: earlier CreationTime wins; on equal times
the larger UID (`strings.Compare(x.UID, y.UID) > 0`) wins. -/
def ParsedLock.IsBetterThan (x y : ParsedLock) : Bool :=
  if x.CreationTime ≠ y.CreationTime then
    decide (x.CreationTime < y.CreationTime)
  else
    decide (y.UID < x.UID)

/-- Go `ParsedLockList`. -/
abbrev ParsedLockList := List ParsedLock

/-- Go `ParsedLockList.Best`: the zero `ParsedLock` for an empty list,
otherwise the fold that keeps the element `IsBetterThan` the answer so far. -/
def ParsedLockList.Best (list : ParsedLockList) : ParsedLock :=
  match list with
  | [] => {}
  | a :: rest =>
    rest.foldl (fun ans elt => if elt.IsBetterThan ans then elt else ans) a

/-- Go `ParsedLockList.AddFunc`: appends `elt` unless an `Equal` element is
already present; the bool reports whether the list changed. -/
def ParsedLockList.AddFunc (list : ParsedLockList) (elt : ParsedLock) :
    ParsedLockList × Bool :=
  if list = [] then ([elt], true)
  else if list.any (fun x => x.Equal elt) then (list, false)
  else (list ++ [elt], true)

/-- Go `ParsedLockList.AddListFunc`: folds `AddFunc` over `list2`. -/
def ParsedLockList.AddListFunc (list list2 : ParsedLockList) :
    ParsedLockList × Bool :=
  list2.foldl
    (fun (acc : ParsedLockList × Bool) elt =>
      let r := ParsedLockList.AddFunc acc.1 elt
      (r.1, acc.2 || r.2))
    (list, false)

/-- Go `ParsedLockList.RemFunc`: removes the first `Equal` occurrence of
`elt`; the bool reports whether something was removed. -/
def ParsedLockList.RemFunc (list : ParsedLockList) (elt : ParsedLock) :
    ParsedLockList × Bool :=
  match list with
  | [] => ([], false)
  | x :: rest =>
    if x.Equal elt then (rest, true)
    else
      let r := ParsedLockList.RemFunc rest elt
      (x :: r.1, r.2)

/-- The choose-and-release fragment of Go `IPAMController.analyzeAndRelease`
(the block computing `usableToRelease`, `lockForStatus` and `locksToRelease`):
if the attachment is gone every usable lock is released; else if `lockInStatus`
was found the other usable locks are released; else if any usable lock exists
`lockForStatus := usableLocks.Best()` and the rest are released; undesired
locks are always released. -/
def chooseAndRelease (attExists : Bool) (lockInStatus : Option ParsedLock)
    (usableLocks undesiredLocks : ParsedLockList) :
    Option ParsedLock × ParsedLockList :=
  let pair : Option ParsedLock × ParsedLockList :=
    if attExists = false then (none, usableLocks)
    else
      match lockInStatus with
      | some lis => (none, (usableLocks.RemFunc lis).1)
      | none =>
        if usableLocks.length > 0 then
          (some usableLocks.Best, (usableLocks.RemFunc usableLocks.Best).1)
        else (none, [])
  (pair.1, (undesiredLocks.AddListFunc pair.2).1)

/-- The ordering the spec describes: lock `x` beats lock `y` iff `x`'s
creation time is strictly earlier, or the times are equal and `x`'s UID
compares strictly greater as a string. -/
def Beats (x y : ParsedLock) : Prop :=
  x.CreationTime < y.CreationTime
    ∨ (x.CreationTime = y.CreationTime ∧ y.UID < x.UID)

/-! ### Lemmas about the lock ordering and list helpers -/

lemma isBetterThan_iff (x y : ParsedLock) :
    x.IsBetterThan y = true ↔ Beats x y := by
  rw [ParsedLock.IsBetterThan, Beats]
  split_ifs with h
  · simp only [decide_eq_true_eq]
    constructor
    · exact fun h1 => Or.inl h1
    · rintro (h1 | ⟨h2, _⟩)
      · exact h1
      · exact absurd h2 h
  · push_neg at h
    simp only [decide_eq_true_eq]
    constructor
    · exact fun h1 => Or.inr ⟨h, h1⟩
    · rintro (h1 | ⟨_, h2⟩)
      · omega
      · exact h2

lemma beats_irrefl (x : ParsedLock) : ¬ Beats x x := by
  rw [Beats]
  rintro (h | ⟨_, h⟩)
  · omega
  · exact lt_irrefl _ h

lemma beats_trans {x y z : ParsedLock} (h1 : Beats x y) (h2 : Beats y z) :
    Beats x z := by
  rcases h1 with ht1 | ⟨hte1, hu1⟩ <;> rcases h2 with ht2 | ⟨hte2, hu2⟩
  · exact Or.inl (lt_trans ht1 ht2)
  · exact Or.inl (hte2 ▸ ht1)
  · exact Or.inl (hte1 ▸ ht2)
  · exact Or.inr ⟨hte1.trans hte2, lt_trans hu2 hu1⟩

lemma beats_neg_left {a b r : ParsedLock} (h1 : Beats b r) (h2 : ¬ Beats b a) :
    Beats a r := by
  rw [Beats] at h2
  push_neg at h2
  obtain ⟨h2a, h2b⟩ := h2
  have hta : a.CreationTime ≤ b.CreationTime := h2a
  rcases h1 with ht | ⟨hte, hu⟩
  · exact Or.inl (lt_of_le_of_lt hta ht)
  · rcases Nat.lt_or_ge a.CreationTime b.CreationTime with hlt | hge
    · exact Or.inl (hte ▸ hlt)
    · have heq : b.CreationTime = a.CreationTime := by omega
      have hub : b.UID ≤ a.UID := h2b heq
      exact Or.inr ⟨heq.symm.trans hte, lt_of_lt_of_le hu hub⟩

lemma beats_total {x y : ParsedLock} (h : x.UID ≠ y.UID) :
    Beats x y ∨ Beats y x := by
  rcases Nat.lt_trichotomy x.CreationTime y.CreationTime with ht | ht | ht
  · exact Or.inl (Or.inl ht)
  · rcases lt_or_gt_of_ne h with hu | hu
    · exact Or.inr (Or.inr ⟨ht.symm, hu⟩)
    · exact Or.inl (Or.inr ⟨ht, hu⟩)
  · exact Or.inr (Or.inl ht)

lemma best_foldl_spec (rest : ParsedLockList) : ∀ a : ParsedLock,
    (rest.foldl (fun ans elt => if elt.IsBetterThan ans then elt else ans) a)
      ∈ a :: rest ∧
    ∀ x ∈ a :: rest,
      ¬ Beats x (rest.foldl
        (fun ans elt => if elt.IsBetterThan ans then elt else ans) a) := by
  induction rest with
  | nil =>
    intro a
    refine ⟨List.mem_singleton.mpr rfl, ?_⟩
    intro x hx
    rw [List.mem_singleton] at hx
    subst hx
    exact beats_irrefl x
  | cons b rest ih =>
    intro a
    rw [List.foldl_cons]
    by_cases hcond : b.IsBetterThan a = true
    · rw [if_pos hcond]
      obtain ⟨ihmem, ihbeat⟩ := ih b
      constructor
      · rcases List.mem_cons.mp ihmem with hr | hr
        · rw [hr]
          exact List.mem_cons_of_mem _ (List.mem_cons_self _ _)
        · exact List.mem_cons_of_mem _ (List.mem_cons_of_mem _ hr)
      · intro x hx
        rcases List.mem_cons.mp hx with hxa | hx2
        · subst hxa
          intro habs
          exact ihbeat b (List.mem_cons_self _ _)
            (beats_trans ((isBetterThan_iff b x).mp hcond) habs)
        · rcases List.mem_cons.mp hx2 with hxb | hxr
          · subst hxb
            exact ihbeat x (List.mem_cons_self _ _)
          · exact ihbeat x (List.mem_cons_of_mem _ hxr)
    · rw [if_neg hcond]
      obtain ⟨ihmem, ihbeat⟩ := ih a
      constructor
      · rcases List.mem_cons.mp ihmem with hr | hr
        · rw [hr]
          exact List.mem_cons_self _ _
        · exact List.mem_cons_of_mem _ (List.mem_cons_of_mem _ hr)
      · intro x hx
        rcases List.mem_cons.mp hx with hxa | hx2
        · subst hxa
          exact ihbeat x (List.mem_cons_self _ _)
        · rcases List.mem_cons.mp hx2 with hxb | hxr
          · subst hxb
            intro habs
            have hnb : ¬ Beats x a := fun hc =>
              hcond ((isBetterThan_iff x a).mpr hc)
            exact ihbeat a (List.mem_cons_self _ _) (beats_neg_left habs hnb)
          · exact ihbeat x (List.mem_cons_of_mem _ hxr)

lemma best_mem (l : ParsedLockList) (h : l ≠ []) : l.Best ∈ l := by
  cases l with
  | nil => exact absurd rfl h
  | cons a rest => exact (best_foldl_spec rest a).1

lemma best_not_beaten (l : ParsedLockList) (x : ParsedLock) (hx : x ∈ l) :
    ¬ Beats x l.Best := by
  cases l with
  | nil => simp at hx
  | cons a rest => exact (best_foldl_spec rest a).2 x hx

lemma equal_refl (x : ParsedLock) : x.Equal x = true := by
  simp [ParsedLock.Equal]

lemma equal_uid {x y : ParsedLock} (h : x.Equal y = true) : x.UID = y.UID := by
  simp only [ParsedLock.Equal, Bool.and_eq_true, decide_eq_true_eq] at h
  exact h.1.1.2

lemma pairwise_uid_inj {l : ParsedLockList}
    (hpw : l.Pairwise (fun a b => a.UID ≠ b.UID)) :
    ∀ x ∈ l, ∀ y ∈ l, x.UID = y.UID → x = y := by
  induction l with
  | nil => intro x hx; simp at hx
  | cons a rest ih =>
    rw [List.pairwise_cons] at hpw
    intro x hx y hy hxy
    rcases List.mem_cons.mp hx with hxa | hxr <;>
      rcases List.mem_cons.mp hy with hya | hyr
    · rw [hxa, hya]
    · exact absurd (hxa ▸ hxy) (hpw.1 y hyr)
    · exact absurd (hya ▸ hxy).symm (hpw.1 x hxr)
    · exact ih hpw.2 x hxr y hyr hxy

lemma remFunc_sublist (l : ParsedLockList) (e : ParsedLock) :
    (ParsedLockList.RemFunc l e).1.Sublist l := by
  induction l with
  | nil => simp [ParsedLockList.RemFunc]
  | cons x rest ih =>
    rw [ParsedLockList.RemFunc]
    split_ifs with h
    · exact List.sublist_cons_self x rest
    · exact List.Sublist.cons₂ x ih

lemma remFunc_mem {l : ParsedLockList} {e : ParsedLock}
    (hpw : l.Pairwise (fun a b => a.UID ≠ b.UID)) (he : e ∈ l) :
    ∀ z, z ∈ (ParsedLockList.RemFunc l e).1 ↔ (z ∈ l ∧ z ≠ e) := by
  induction l with
  | nil => simp at he
  | cons x rest ih =>
    rw [List.pairwise_cons] at hpw
    intro z
    rw [ParsedLockList.RemFunc]
    split_ifs with hx
    · -- head Equal e: by UID distinctness e must be the head itself
      have hex : e = x := by
        rcases List.mem_cons.mp he with h1 | h1
        · exact h1
        · exact absurd (equal_uid hx) (hpw.1 e h1)
      subst hex
      have hnotr : e ∉ rest := fun hr => (hpw.1 e hr) rfl
      constructor
      · intro hz
        exact ⟨List.mem_cons_of_mem _ hz, fun hze => hnotr (hze ▸ hz)⟩
      · rintro ⟨hz, hne⟩
        rcases List.mem_cons.mp hz with h1 | h1
        · exact absurd h1 hne
        · exact h1
    · have hex : e ≠ x := fun h1 => hx (h1 ▸ equal_refl e)
      have her : e ∈ rest := by
        rcases List.mem_cons.mp he with h1 | h1
        · exact absurd h1 hex
        · exact h1
      simp only [List.mem_cons]
      rw [ih hpw.2 her]
      constructor
      · rintro (hzx | ⟨hz, hne⟩)
        · exact ⟨Or.inl hzx, hzx ▸ fun h1 => hex h1.symm⟩
        · exact ⟨Or.inr hz, hne⟩
      · rintro ⟨hzx | hz, hne⟩
        · exact Or.inl hzx
        · exact Or.inr ⟨hz, hne⟩

lemma addListFunc_fold_aux (l2 : ParsedLockList) : ∀ (l1 : ParsedLockList) (b : Bool),
    (l1 ++ l2).Pairwise (fun a c => a.UID ≠ c.UID) →
    (l2.foldl
      (fun (acc : ParsedLockList × Bool) elt =>
        let r := ParsedLockList.AddFunc acc.1 elt
        (r.1, acc.2 || r.2))
      (l1, b)).1 = l1 ++ l2 := by
  induction l2 with
  | nil => intro l1 b _; simp
  | cons e l2 ih =>
    intro l1 b hpw
    have hstep : ParsedLockList.AddFunc l1 e = (l1 ++ [e], true) := by
      rw [ParsedLockList.AddFunc]
      split_ifs with h1 h2
      · rw [h1]; rfl
      · -- an Equal element in l1 is impossible: UIDs across the append differ
        exfalso
        obtain ⟨x, hx, hxe⟩ := List.any_eq_true.mp h2
        exact (List.pairwise_append.mp hpw).2.2 x hx e (List.mem_cons_self _ _) (equal_uid hxe)
      · rfl
    rw [List.foldl_cons]
    simp only [hstep]
    have hrw : (l1 ++ [e]) ++ l2 = l1 ++ e :: l2 := by simp
    rw [ih (l1 ++ [e]) _ (by rw [hrw]; exact hpw), hrw]

/-- C6: with a non-empty usable-lock list and no `lockInStatus`, the
reconciler picks `lockForStatus` as the unique best usable lock — where lock
`x` beats lock `y` iff `x`'s CreationTime is strictly earlier or the times are
equal and `x`'s UID compares strictly greater — and the release set consists
of exactly the other usable locks and all undesired locks.  (The UIDs of
distinct lock objects are assumed pairwise distinct, as Kubernetes object UIDs
are.) -/
theorem ipam_lock_choice (usable undesired : ParsedLockList)
    (hne : usable ≠ [])
    (hpw : (undesired ++ usable).Pairwise (fun a b => a.UID ≠ b.UID)) :
    (chooseAndRelease true none usable undesired).1 = some usable.Best
    ∧ usable.Best ∈ usable
    ∧ (∀ y ∈ usable, y ≠ usable.Best → Beats usable.Best y)
    ∧ (∀ b ∈ usable, (∀ y ∈ usable, y ≠ b → Beats b y) → b = usable.Best)
    ∧ ∀ z, z ∈ (chooseAndRelease true none usable undesired).2 ↔
        (z ∈ undesired ∨ (z ∈ usable ∧ z ≠ usable.Best)) := by
  have husepw : usable.Pairwise (fun a b => a.UID ≠ b.UID) :=
    List.Pairwise.sublist (List.sublist_append_right undesired usable) hpw
  have hbm : usable.Best ∈ usable := best_mem usable hne
  have hCR : chooseAndRelease true none usable undesired =
      (some usable.Best,
        (undesired.AddListFunc (usable.RemFunc usable.Best).1).1) := by
    rw [chooseAndRelease]
    simp [List.length_pos.mpr hne]
  have hrem : ∀ z, z ∈ (usable.RemFunc usable.Best).1 ↔
      (z ∈ usable ∧ z ≠ usable.Best) := remFunc_mem husepw hbm
  have hrelpw : (undesired ++ (usable.RemFunc usable.Best).1).Pairwise
      (fun a b => a.UID ≠ b.UID) :=
    List.Pairwise.sublist
      ((remFunc_sublist usable usable.Best).append_left undesired) hpw
  have hrel : (undesired.AddListFunc (usable.RemFunc usable.Best).1).1 =
      undesired ++ (usable.RemFunc usable.Best).1 := by
    rw [ParsedLockList.AddListFunc]
    exact addListFunc_fold_aux _ _ _ hrelpw
  refine ⟨by rw [hCR], hbm, ?_, ?_, ?_⟩
  · intro y hy hyne
    have huid : y.UID ≠ usable.Best.UID := fun h =>
      hyne (pairwise_uid_inj husepw y hy usable.Best hbm h)
    rcases beats_total huid with hb | hb
    · exact absurd hb (best_not_beaten usable y hy)
    · exact hb
  · intro b hb hprop
    by_contra hne2
    exact best_not_beaten usable b hb
      (hprop usable.Best hbm (fun h => hne2 h.symm))
  · intro z
    rw [hCR]
    simp only [hrel, List.mem_append]
    rw [hrem z]

/-- Witness for C6: two usable locks (the second older) and one undesired
lock; the older lock is chosen and the other two are released. -/
theorem ipam_lock_choice_witness :
    (chooseAndRelease true none
        [{ UID := "a", CreationTime := 5 }, { UID := "b", CreationTime := 3 }]
        [{ UID := "c", addrU := 9 }]).1 =
      some (ParsedLockList.Best
        [{ UID := "a", CreationTime := 5 }, { UID := "b", CreationTime := 3 }]) :=
  (ipam_lock_choice
    [{ UID := "a", CreationTime := 5 }, { UID := "b", CreationTime := 3 }]
    [{ UID := "c", addrU := 9 }] (by decide) (by decide)).1

/-! ### Lemmas about write sets, and the write-stamping claims -/

lemma setWrite_shape (ws : WriteSet) (s : String) (t : Nat) :
    ws.SetWrite s t = ⟨s, t⟩ ::
      (ws.take (ws.findIdx fun wr => wr.sec = s) ++
        ws.drop ((ws.findIdx fun wr => wr.sec = s) + 1)) := by
  simp only [WriteSet.SetWrite]
  split_ifs with h
  · rw [h, List.take_length, List.drop_eq_nil_of_le (by omega), List.append_nil]
  · rfl

lemma getWrite_remove (ws : WriteSet) (s s2 : String) (hne : s2 ≠ s) :
    WriteSet.GetWrite
      (ws.take (ws.findIdx fun wr => wr.sec = s) ++
        ws.drop ((ws.findIdx fun wr => wr.sec = s) + 1)) s2
      = ws.GetWrite s2 := by
  induction ws with
  | nil => rfl
  | cons w rest ih =>
    by_cases hw : w.sec = s
    · have hidx : (w :: rest).findIdx (fun wr => wr.sec = s) = 0 := by
        rw [List.findIdx_cons]
        simp [hw]
      rw [hidx]
      simp only [List.take_zero, List.drop_succ_cons, List.drop_zero,
        List.nil_append]
      rw [WriteSet.GetWrite]
      rw [if_neg (by rw [hw]; exact fun h2 => hne h2.symm)]
    · have hidx : (w :: rest).findIdx (fun wr => wr.sec = s) =
          rest.findIdx (fun wr => wr.sec = s) + 1 := by
        rw [List.findIdx_cons]
        simp [hw]
      rw [hidx]
      simp only [List.take_succ_cons, List.drop_succ_cons, List.cons_append]
      by_cases hw2 : w.sec = s2
      · rw [WriteSet.GetWrite, if_pos hw2, WriteSet.GetWrite, if_pos hw2]
      · rw [WriteSet.GetWrite, if_neg hw2, WriteSet.GetWrite, if_neg hw2]
        exact ih

lemma setWrite_getWrite_self (ws : WriteSet) (s : String) (t : Nat) :
    (ws.SetWrite s t).GetWrite s = (⟨s, t⟩, true) := by
  rw [setWrite_shape, WriteSet.GetWrite, if_pos rfl]

lemma setWrite_getWrite_other (ws : WriteSet) (s s2 : String) (t : Nat)
    (hne : s2 ≠ s) :
    (ws.SetWrite s t).GetWrite s2 = ws.GetWrite s2 := by
  rw [setWrite_shape, WriteSet.GetWrite, if_neg (fun h => hne h.symm)]
  exact getWrite_remove ws s s2 hne

lemma getWrite_default_of_not_found (ws : WriteSet) (s : String)
    (h : (ws.GetWrite s).2 = false) : ws.GetWrite s = (⟨"", 0⟩, false) := by
  induction ws with
  | nil => rfl
  | cons w rest ih =>
    rw [WriteSet.GetWrite] at h ⊢
    by_cases hw : w.sec = s
    · rw [if_pos hw] at h
      simp at h
    · rw [if_neg hw] at h ⊢
      exact ih h

/-- C10: `ws.SetWrite s t` maps section `s` to a write with server time `t`
(`GetWrite` finds it, `GetServerWriteTime` returns `t`), maps every other
section to exactly the write it had in `ws`, and (the embedding being a pure
function) leaves the receiver `ws` unmodified; `GetServerWriteTime` returns
the zero `MicroTime` for any section with no recorded write. -/
theorem writeset_setwrite_spec (ws : WriteSet) (s : String) (t : Nat) :
    (ws.SetWrite s t).GetWrite s = (⟨s, t⟩, true)
    ∧ (ws.SetWrite s t).GetServerWriteTime s = t
    ∧ (∀ s2, s2 ≠ s → (ws.SetWrite s t).GetWrite s2 = ws.GetWrite s2)
    ∧ ∀ s2, (ws.GetWrite s2).2 = false → ws.GetServerWriteTime s2 = 0 := by
  refine ⟨setWrite_getWrite_self ws s t, ?_, ?_, ?_⟩
  · rw [WriteSet.GetServerWriteTime, setWrite_getWrite_self ws s t]
  · exact fun s2 hne => setWrite_getWrite_other ws s s2 t hne
  · intro s2 h
    rw [WriteSet.GetServerWriteTime, getWrite_default_of_not_found ws s2 h]

/-- Witness for C10 on a one-entry write set. -/
theorem writeset_setwrite_spec_witness :
    (WriteSet.SetWrite [⟨"spec", 1⟩] "status" 5).GetWrite "spec"
      = (⟨"spec", 1⟩, true) :=
  (writeset_setwrite_spec [⟨"spec", 1⟩] "status" 5).2.2.1 "spec" (by decide)

lemma sliceOfStringEqual_iff (x y : List String) :
    SliceOfStringEqual x y = true ↔ x = y := by
  induction x generalizing y with
  | nil => cases y <;> simp [SliceOfStringEqual]
  | cons a xs ih =>
    cases y with
    | nil => simp [SliceOfStringEqual]
    | cons b ys =>
      rw [SliceOfStringEqual]
      simp only [Bool.and_eq_true, decide_eq_true_eq, List.cons.injEq]
      rw [ih ys]

/-- C9: a Subnet status update preserves the spec (copied back from the old
object) and stamps the status write-section with the current server time iff
`status.validated` or `status.errors` changed, leaving the write set exactly
the old object's otherwise; a Subnet create stamps only the spec section and
resets the status to empty. -/
theorem subnet_stamping (newS oldS : Subnet) (now : Nat) :
    (subnetStatusPrepareForUpdate newS oldS now).spec = oldS.spec
    ∧ ((newS.status.validated ≠ oldS.status.validated
          ∨ newS.status.errors ≠ oldS.status.errors) →
        (subnetStatusPrepareForUpdate newS oldS now).writes.GetServerWriteTime
            SubnetSectionStatus = now)
    ∧ (newS.status.validated = oldS.status.validated
          ∧ newS.status.errors = oldS.status.errors →
        (subnetStatusPrepareForUpdate newS oldS now).writes = oldS.writes)
    ∧ (subnetPrepareForCreate newS now).writes = [⟨SubnetSectionSpec, now⟩]
    ∧ (subnetPrepareForCreate newS now).status = SubnetStatus.empty
    ∧ ((subnetPrepareForCreate newS now).writes.GetWrite
        SubnetSectionStatus).2 = false := by
  refine ⟨?_, ?_, ?_, rfl, rfl, rfl⟩
  · rw [subnetStatusPrepareForUpdate]
    split_ifs <;> rfl
  · intro hch
    rw [subnetStatusPrepareForUpdate]
    split_ifs with h
    · rw [WriteSet.GetServerWriteTime, setWrite_getWrite_self]
    · exfalso
      push_neg at h
      rcases hch with h1 | h1
      · exact h1 h.1
      · exact h1 ((sliceOfStringEqual_iff _ _).mp (by simpa using h.2))
  · rintro ⟨h1, h2⟩
    rw [subnetStatusPrepareForUpdate]
    split_ifs with h
    · exfalso
      rcases h with h3 | h3
      · exact h3 h1
      · exact h3 (by rw [(sliceOfStringEqual_iff _ _), h2])
    · rfl

/-- Witness for C9: an update that flips `validated` stamps the status
section. -/
theorem subnet_stamping_witness :
    (subnetStatusPrepareForUpdate
        ⟨⟨"10.0.0.0/29", 7⟩, ⟨true, []⟩, []⟩
        ⟨⟨"10.0.0.0/29", 7⟩, ⟨false, []⟩, []⟩ 42).writes.GetServerWriteTime
      SubnetSectionStatus = 42 :=
  (subnet_stamping ⟨⟨"10.0.0.0/29", 7⟩, ⟨true, []⟩, []⟩
    ⟨⟨"10.0.0.0/29", 7⟩, ⟨false, []⟩, []⟩ 42).2.1 (by simp)

/-! ## IPAM reconcile model (processNetworkAttachment and callees)

The reconciler's interactions with the API server and the informer caches are
inputs of the model (`IPAMEnv`); its API writes (lock deletes, lock creates,
the status update) and the per-attachment bookkeeping
(`NetworkAttachmentData`) are outputs.  Status `IPv4` strings are modelled as
`Option Nat` (the address value; `none` is the empty string) — the controller
only ever writes canonical `IP.String()` renderings, under which string
comparison agrees with value comparison. -/

/-- The status fields of a NetworkAttachment that the IPAM controller reads
and writes. -/
structure NetworkAttachmentStatus where
  errorsIPAM : List String := []
  addressContention : Bool := false
  lockUID : String := ""
  addressVNI : Nat := 0
  ipv4 : Option Nat := none
  deriving DecidableEq, Repr

/-- The parts of a NetworkAttachment the IPAM reconciler uses. -/
structure NetworkAttachment where
  uid : String
  resourceVersion : String
  subnetName : String
  status : NetworkAttachmentStatus
  deriving DecidableEq, Repr

/-- A Subnet as seen through the subnet lister: `cidr` is the outcome of
`gonet.ParseCIDR` plus `convert.IPNetToBoundsU` on `Spec.IPv4` (`none` =
malformed CIDR, `some (baseU, lastU)` otherwise). -/
structure SubnetObj where
  uid : String
  vni : Nat
  validated : Bool
  errors : List String
  cidr : Option (Nat × Nat)
  deriving DecidableEq, Repr

/-- Go `NetworkAttachmentData`: the controller's per-attachment bookkeeping;
the defaults are the Go zero value. -/
structure NetworkAttachmentData where
  anticipatedIPv4 : Option Nat := none
  anticipatingResourceVersion : String := ""
  anticipatedResourceVersion : String := ""
  anticipationSubnetUID : String := ""
  addressContention : Bool := false
  deriving DecidableEq, Repr, Inhabited

/-- An IPLock object as delivered by the informer or a point Get:
`parsed` is the `NewParsedLock` outcome (`none` when the name fails to
parse), and `ownerName`/`ownerUID` the `GetOwner` result for kind
`NetworkAttachment`. -/
structure IPLockObj where
  parsed : Option ParsedLock
  ownerName : String
  ownerUID : String
  deriving DecidableEq, Repr

/-- Outcome of the subnet lister Get. -/
inductive SubnetLookup
  | found (subnet : SubnetObj)
  | notFound
  | listerError
  deriving DecidableEq, Repr

/-- Outcome of one IPLock Delete call. -/
inductive DeleteOutcome
  | ok
  | notFound
  | failed
  deriving DecidableEq, Repr

/-- Outcome of the Get issued after an `AlreadyExists` create failure. -/
inductive GetLockOutcome
  | ok (ownerName ownerUID lockUID : String) (creationTime : Nat)
  | notFound
  | getError
  deriving DecidableEq, Repr

/-- Outcome of one IPLock Create call. -/
inductive CreateOutcome
  | created (lockUID : String) (creationTime : Nat)
  | alreadyExists (g : GetLockOutcome)
  | invalidError
  | otherError
  deriving DecidableEq, Repr

/-- Outcome of the attachment status update. -/
inductive UpdateOutcome
  | ok (newRV : String)
  | notFound
  | failed
  deriving DecidableEq, Repr

/-- The distinct non-nil `error` values the reconcile can return.
`modelOutOfCreateOutcomes` is an artifact of finitizing the unbounded
create-retry loop: it is produced only when the environment's list of create
outcomes is exhausted (Go would keep retrying). -/
inductive GoErr
  | fullSubnet
  | cacheIncoherence
  | fetchLockFailed
  | createFailed
  | deleteFailed
  | updateFailed
  | fullSubnetAndUpdateFailed
  | modelOutOfCreateOutcomes
  deriving DecidableEq, Repr

/-- Everything the reconcile reads from caches and the API server. -/
structure IPAMEnv where
  attListerError : Bool := false
  att : Option NetworkAttachment := none
  nadat0 : Option NetworkAttachmentData := none
  subnetLookup : SubnetLookup := SubnetLookup.notFound
  indexerOk : Bool := true
  ownedLocks : List IPLockObj := []
  statusLockFetch : Option IPLockObj := none
  deleteOutcomes : List DeleteOutcome := []
  pickResult : Option Nat := none
  createOutcomes : List CreateOutcome := []
  testPresent : Bool := true
  updateOutcome : UpdateOutcome := UpdateOutcome.failed
  deriving DecidableEq, Repr

/-- Go constant `fullSubnetStatusMsg`. -/
def fullSubnetStatusMsg : String := "Referenced subnet has run out of IPs"

/-- Go `fullSubnetMsgFound`. -/
def fullSubnetMsgFound (messages : List String) : Bool :=
  messages.any (fun m => fullSubnetStatusMsg = m)

/-- The running state of `analyzeAndRelease`'s `consider` closure. -/
structure ConsiderState where
  timeSlippers : ParsedLockList := []
  undesiredLocks : ParsedLockList := []
  usableLocks : ParsedLockList := []
  lockInStatus : Option ParsedLock := none
  deriving DecidableEq, Repr

/-- Go `consider` (closure in `analyzeAndRelease`): classifies one owned
IPLock as time-slipper (owner UID differs from the current attachment UID),
undesired (wrong VNI or out of range) or usable, and recognizes the lock
matching the attachment's status (same UID as `status.lockUID` and same
address as `status.ipv4`). -/
def considerLock (att : Option NetworkAttachment) (statusLockUID : String)
    (vni baseU lastU : Nat) (st : ConsiderState) (obj : IPLockObj) :
    ConsiderState :=
  match obj.parsed with
  | none => st
  | some parsed =>
    let slip : Bool :=
      match att with
      | some a => obj.ownerUID ≠ a.uid
      | none => false
    if slip then { st with timeSlippers := st.timeSlippers ++ [parsed] }
    else if parsed.VNI ≠ vni ∨ parsed.addrU < baseU ∨ parsed.addrU > lastU then
      { st with undesiredLocks := st.undesiredLocks ++ [parsed] }
    else
      let isStatus : Bool :=
        match att with
        | some a => parsed.UID = statusLockUID
            && a.status.ipv4 = some parsed.addrU
        | none => false
      let st2 := if isStatus then { st with lockInStatus := some parsed } else st
      { st2 with usableLocks := st2.usableLocks ++ [parsed] }

/-- The delete loop at the end of `analyzeAndRelease`: issues one Delete per
lock to release; `ok` and `NotFound` outcomes continue, any other error stops
the loop and is returned.  Returns the locks for which a Delete call was
issued and the error.  Outcomes beyond the provided list are `ok`. -/
def runDeletes : ParsedLockList → List DeleteOutcome →
    ParsedLockList × Option GoErr
  | [], _ => ([], none)
  | l :: rest, outs =>
    match outs.headD DeleteOutcome.ok with
    | DeleteOutcome.failed => ([l], some GoErr.deleteFailed)
    | _ =>
      let r := runDeletes rest outs.tail
      (l :: r.1, r.2)

/-- The result of `analyzeAndRelease`. -/
structure AnalyzeResult where
  subnetUID : String := "."
  desiredVNI : Nat := 0
  desiredBaseU : Nat := 0
  desiredLastU : Nat := 0
  lockInStatus : Option ParsedLock := none
  lockForStatus : Option ParsedLock := none
  statusErrs : List String := []
  err : Option GoErr := none
  ok : Bool := false
  nadat : Option NetworkAttachmentData := none
  deleteCalls : ParsedLockList := []
  deriving DecidableEq, Repr

/-- The lock-processing tail of Go `analyzeAndRelease` (everything after the
subnet checks): indexer lookup, `consider` over the owned locks, the point
Get for the lock named from `status.ipv4` (considered only when its owner
name is this attachment's name), the anticipation-reset check, the
choose-and-release computation, and the deletions. -/
def analyzeLocksPhase (name : String) (att : Option NetworkAttachment)
    (statusLockUID subnetUID : String) (vni baseU lastU : Nat)
    (nadat : Option NetworkAttachmentData) (env : IPAMEnv) : AnalyzeResult :=
  if env.indexerOk = false then
    { subnetUID := subnetUID, desiredVNI := vni, desiredBaseU := baseU,
      desiredLastU := lastU, nadat := nadat }
  else
    let st1 := env.ownedLocks.foldl
      (considerLock att statusLockUID vni baseU lastU) {}
    let st2 : ConsiderState :=
      match att with
      | some a =>
        if a.status.ipv4 ≠ none ∧ st1.lockInStatus = none then
          match env.statusLockFetch with
          | some obj =>
            if obj.ownerName = name then
              considerLock att statusLockUID vni baseU lastU st1 obj
            else st1
          | none => st1
        else st1
      | none => st1
    let nadat2 : Option NetworkAttachmentData :=
      match nadat with
      | none => none
      | some d =>
        let reset : Bool :=
          match att with
          | none => true
          | some a =>
            (d.anticipatingResourceVersion ≠ a.resourceVersion
              && d.anticipatedResourceVersion ≠ a.resourceVersion)
            || d.anticipationSubnetUID ≠ subnetUID
        if reset then
          some { d with
            anticipatedIPv4 := none
            anticipatingResourceVersion := ""
            anticipatedResourceVersion := ""
            anticipationSubnetUID := "" }
        else some d
    let cr := chooseAndRelease att.isSome st2.lockInStatus st2.usableLocks
      st2.undesiredLocks
    let del := runDeletes cr.2 env.deleteOutcomes
    { subnetUID := subnetUID, desiredVNI := vni, desiredBaseU := baseU,
      desiredLastU := lastU, lockInStatus := st2.lockInStatus,
      lockForStatus := cr.1, statusErrs := [], err := del.2,
      ok := del.2 = none, nadat := nadat2, deleteCalls := del.1 }

/-- Go `IPAMController.analyzeAndRelease`: subnet checks (each early return
carries its status error and skips the lock phase), then the lock phase. -/
def analyzeAndRelease (name : String) (att : Option NetworkAttachment)
    (nadat : Option NetworkAttachmentData) (env : IPAMEnv) : AnalyzeResult :=
  match att with
  | none => analyzeLocksPhase name none "<none>" "." 0 0 0 nadat env
  | some a =>
    match env.subnetLookup with
    | SubnetLookup.listerError => { nadat := nadat }
    | SubnetLookup.notFound =>
      { statusErrs := ["Subnet " ++ a.subnetName ++ " does not exist"],
        ok := true, nadat := nadat }
    | SubnetLookup.found subnet =>
      if subnet.validated then
        match subnet.cidr with
        | none =>
          { subnetUID := subnet.uid, desiredVNI := subnet.vni,
            statusErrs := ["Subnet " ++ a.subnetName
              ++ " has malformed IPv4 CIDR block"],
            ok := true, nadat := nadat }
        | some (baseU, lastU) =>
          analyzeLocksPhase name (some a) a.status.lockUID subnet.uid
            subnet.vni baseU lastU nadat env
      else if subnet.errors = [] then
        { nadat := nadat }
      else
        { statusErrs := ["Subnet " ++ a.subnetName
            ++ " has not passed validation"],
          ok := true, nadat := nadat }

/-- Result of the create-retry loop in `pickAndLockAddress`. -/
structure CreateLoopResult where
  success : Option (String × Nat) := none
  err : Option GoErr := none
  released : Bool := false
  createCalls : Nat := 0
  deriving DecidableEq, Repr

/-- The `for` loop of Go `pickAndLockAddress`: Create the lock; on success
break; on `AlreadyExists` fetch the existing lock — adopt it when its
controller owner reference carries this attachment's name and UID, retry when
it disappeared again, return a transient error when the Get failed, and
return the `cache incoherence` error (without releasing the address) when the
owner is someone else; on an `Invalid` create error release the address and
return success (`err = nil`); on any other create error release the address
and return a transient error. -/
def createLoop (name attUID : String) : List CreateOutcome → CreateLoopResult
  | [] => { err := some GoErr.modelOutOfCreateOutcomes }
  | o :: rest =>
    match o with
    | CreateOutcome.created lockUID t =>
      { success := some (lockUID, t), createCalls := 1 }
    | CreateOutcome.alreadyExists g =>
      match g with
      | GetLockOutcome.ok ownerName ownerUID lockUID t =>
        if ownerName = name ∧ ownerUID = attUID then
          { success := some (lockUID, t), createCalls := 1 }
        else
          { err := some GoErr.cacheIncoherence, createCalls := 1 }
      | GetLockOutcome.notFound =>
        let r := createLoop name attUID rest
        { r with createCalls := r.createCalls + 1 }
      | GetLockOutcome.getError =>
        { err := some GoErr.fetchLockFailed, createCalls := 1 }
    | CreateOutcome.invalidError =>
      { err := none, released := true, createCalls := 1 }
    | CreateOutcome.otherError =>
      { err := some GoErr.createFailed, released := true, createCalls := 1 }

/-- Result of `pickAndLockAddress`. -/
structure PALResult where
  lockForStatus : ParsedLock := {}
  ipForStatus : Option Nat := none
  err : Option GoErr := none
  released : Bool := false
  createCalls : Nat := 0
  deriving DecidableEq, Repr

/-- Go `IPAMController.pickAndLockAddress` (after the bounds narrowing of
`pickAndLockBounds`, whose output feeds the address cache): the cache's pick
is an environment input (`none` = range saturated, reported as the
full-subnet error); on a successful pick the lock named
`makeIPLockName2(vni, ip)` is created through `createLoop`; on success or
adoption the returned `lockForStatus` carries the created lock's UID and
creation time, otherwise the zero-valued stub is returned together with the
loop's error and release flag. -/
def pickAndLockAddress (ns name : String) (att : NetworkAttachment)
    (vni : Nat) (pickResult : Option Nat)
    (createOutcomes : List CreateOutcome) : PALResult :=
  match pickResult with
  | none => { err := some GoErr.fullSubnet }
  | some ipU =>
    let lockName := makeIPLockName2 vni (ipU / 2 ^ 24 % 256)
      (ipU / 2 ^ 16 % 256) (ipU / 2 ^ 8 % 256) (ipU % 256)
    let stub : ParsedLock :=
      { ns := ns, name := lockName, VNI := vni, addrU := ipU }
    let r := createLoop name att.uid createOutcomes
    match r.success with
    | some (lockUID, t) =>
      { lockForStatus :=
          { stub with UID := lockUID, CreationTime := t, objPresent := true },
        ipForStatus := some ipU, released := r.released,
        createCalls := r.createCalls }
    | none =>
      { lockForStatus := stub, ipForStatus := some ipU, err := r.err,
        released := r.released, createCalls := r.createCalls }

/-- Result of `updateNAStatus`. -/
structure UpdateResult where
  err : Option GoErr := none
  nd : NetworkAttachmentData := {}
  called : Bool := false
  written : Option NetworkAttachmentStatus := none
  deriving DecidableEq, Repr

/-- Go `IPAMController.updateNAStatus`: re-checks the lister (`testPresent`),
builds the status payload (errors, contention flag, lock UID, VNI, address)
and calls `UpdateStatus`; on success with no status errors it records the
anticipation fields (old RV, new RV, subnet UID, address); `NotFound` is
treated as success; other failures return an error. -/
def updateNAStatus (att : NetworkAttachment) (nd : NetworkAttachmentData)
    (statusErrs : List String) (subnetUID : String)
    (lockForStatus : ParsedLock) (ipForStatus : Option Nat)
    (testPresent : Bool) (updateOutcome : UpdateOutcome) : UpdateResult :=
  if testPresent = false then { nd := nd }
  else
    let st : NetworkAttachmentStatus :=
      { errorsIPAM := statusErrs
        addressContention := nd.addressContention
        lockUID := lockForStatus.UID
        addressVNI := lockForStatus.VNI
        ipv4 := ipForStatus }
    match updateOutcome with
    | UpdateOutcome.ok newRV =>
      if statusErrs ≠ [] then { nd := nd, called := true, written := some st }
      else
        { nd := { nd with
            anticipatingResourceVersion := att.resourceVersion
            anticipatedResourceVersion := newRV
            anticipationSubnetUID := subnetUID
            anticipatedIPv4 := ipForStatus },
          called := true, written := some st }
    | UpdateOutcome.notFound => { nd := nd, called := true, written := some st }
    | UpdateOutcome.failed =>
      { err := some GoErr.updateFailed, nd := nd, called := true,
        written := some st }

/-- The observable outcome of one reconcile.  `releasedAddress` is true when
the reconcile called `ReleaseAddress` on the picked address. -/
structure ReconcileResult where
  err : Option GoErr := none
  nadat : Option NetworkAttachmentData := none
  deleteCalls : ParsedLockList := []
  createCalls : Nat := 0
  releasedAddress : Bool := false
  updateCalled : Bool := false
  statusWritten : Option NetworkAttachmentStatus := none
  deriving DecidableEq, Repr

/-- Go `IPAMController.processNetworkAttachment`: attachment lookup and
bookkeeping, `analyzeAndRelease`, the `lockInStatus` shortcut, the two
anticipation shortcuts, `pickAndLockAddress` with the full-subnet handling,
and `updateNAStatus`. -/
def processNetworkAttachment (ns name : String) (env : IPAMEnv) :
    ReconcileResult :=
  if env.attListerError then { nadat := env.nadat0 }
  else
    let att := env.att
    let nadat1 : Option NetworkAttachmentData :=
      match env.nadat0, att with
      | some d, _ => some d
      | none, some _ => some {}
      | none, none => none
    let nadat2 : Option NetworkAttachmentData :=
      match nadat1, att with
      | some d, some a =>
        some { d with addressContention :=
          d.addressContention || a.status.addressContention }
      | _, _ => nadat1
    let ar := analyzeAndRelease name att nadat2 env
    if ar.err ≠ none ∨ ar.ok = false then
      { err := ar.err, nadat := ar.nadat, deleteCalls := ar.deleteCalls }
    else
      match att with
      | none => { nadat := none, deleteCalls := ar.deleteCalls }
      | some a =>
        if ar.lockInStatus.isSome then
          { nadat := ar.nadat, deleteCalls := ar.deleteCalls }
        else
          let nd := ar.nadat.getD {}
          if ar.statusErrs ≠ [] then
            let u := updateNAStatus a nd ar.statusErrs ar.subnetUID
              (ar.lockForStatus.getD {}) none env.testPresent env.updateOutcome
            { err := u.err, nadat := some u.nd, deleteCalls := ar.deleteCalls,
              updateCalled := u.called, statusWritten := u.written }
          else
            match ar.lockForStatus with
            | some lfs =>
              if nd.anticipatedIPv4 = some lfs.addrU then
                { nadat := ar.nadat, deleteCalls := ar.deleteCalls }
              else
                let u := updateNAStatus a nd [] ar.subnetUID lfs
                  (some lfs.addrU) env.testPresent env.updateOutcome
                { err := u.err, nadat := some u.nd,
                  deleteCalls := ar.deleteCalls, updateCalled := u.called,
                  statusWritten := u.written }
            | none =>
              if nd.anticipatedIPv4 ≠ none then
                { nadat := ar.nadat, deleteCalls := ar.deleteCalls }
              else
                let pal := pickAndLockAddress ns name a ar.desiredVNI
                  env.pickResult env.createOutcomes
                let contentionNow : Bool := pal.err = some GoErr.fullSubnet
                let nd2 := { nd with addressContention :=
                  nd.addressContention || contentionNow }
                if contentionNow ∧ ¬ (fullSubnetMsgFound a.status.errorsIPAM = true) then
                  let u := updateNAStatus a nd2 [fullSubnetStatusMsg]
                    ar.subnetUID pal.lockForStatus pal.ipForStatus
                    env.testPresent env.updateOutcome
                  match u.err with
                  | some _ =>
                    { err := some GoErr.fullSubnetAndUpdateFailed,
                      nadat := some u.nd, deleteCalls := ar.deleteCalls,
                      createCalls := pal.createCalls,
                      releasedAddress := pal.released,
                      updateCalled := u.called, statusWritten := u.written }
                  | none =>
                    { err := some GoErr.fullSubnet, nadat := some u.nd,
                      deleteCalls := ar.deleteCalls,
                      createCalls := pal.createCalls,
                      releasedAddress := pal.released,
                      updateCalled := u.called, statusWritten := u.written }
                else if pal.err ≠ none then
                  { err := pal.err, nadat := some nd2,
                    deleteCalls := ar.deleteCalls,
                    createCalls := pal.createCalls,
                    releasedAddress := pal.released }
                else
                  let u := updateNAStatus a nd2 [] ar.subnetUID
                    pal.lockForStatus pal.ipForStatus env.testPresent
                    env.updateOutcome
                  { err := u.err, nadat := some u.nd,
                    deleteCalls := ar.deleteCalls,
                    createCalls := pal.createCalls,
                    releasedAddress := pal.released,
                    updateCalled := u.called, statusWritten := u.written }

/-- What Go `processQueueItem` does with the key after the reconcile. -/
inductive QueueDisposition
  | forget
  | addRateLimited
  deriving DecidableEq, Repr

/-- Go `processQueueItem` (lines after `processNetworkAttachment`): a nil
error means `Forget`, any error means `AddRateLimited`. -/
def processQueueItemDisposition (err : Option GoErr) : QueueDisposition :=
  match err with
  | none => QueueDisposition.forget
  | some _ => QueueDisposition.addRateLimited

/-- A reconcile environment in which the attachment exists with a clean
status, its subnet is validated with a well-formed CIDR, no owned locks are
in the cache and there is no prior bookkeeping, so control reaches the
address-picking step with the given pick result and create outcomes. -/
def ipamPickEnv (uid rv snName suid : String) (vni baseU lastU : Nat)
    (pick : Option Nat) (creates : List CreateOutcome) (upd : UpdateOutcome) :
    IPAMEnv :=
  { att := some ⟨uid, rv, snName, ⟨[], false, "", 0, none⟩⟩
    subnetLookup := SubnetLookup.found ⟨suid, vni, true, [], some (baseU, lastU)⟩
    pickResult := pick
    createOutcomes := creates
    testPresent := true
    updateOutcome := upd }

/-- A reconcile environment like `ipamPickEnv` but with prior per-attachment
bookkeeping `nd` and owned locks `locks`, a saturated pick and a failing
update (so any API write would be visible in the result). -/
def ipamAnticipationEnv (uid rv snName suid : String) (vni baseU lastU : Nat)
    (nd : Option NetworkAttachmentData) (locks : List IPLockObj) : IPAMEnv :=
  { att := some ⟨uid, rv, snName, ⟨[], false, "", 0, none⟩⟩
    nadat0 := nd
    subnetLookup := SubnetLookup.found ⟨suid, vni, true, [], some (baseU, lastU)⟩
    ownedLocks := locks
    pickResult := none
    testPresent := true
    updateOutcome := UpdateOutcome.failed }

/-- C3: when the address pick fails because the range is saturated
(`PickAddress` returns `ok=false`) and the message is not already in the
attachment's IPAM status errors, the reconcile writes a status whose
`errors.ipam` is exactly `["Referenced subnet has run out of IPs"]` with
`addressContention = true`, and returns a non-nil error (whatever the status
update's own outcome). -/
theorem ipam_full_subnet_reconcile (ns name uid rv snName suid : String)
    (vni baseU lastU : Nat) (errs0 : List String) (cont0 : Bool)
    (upd : UpdateOutcome) (hmsg : fullSubnetMsgFound errs0 = false) :
    (processNetworkAttachment ns name
      { att := some ⟨uid, rv, snName, ⟨errs0, cont0, "", 0, none⟩⟩
        subnetLookup := SubnetLookup.found ⟨suid, vni, true, [], some (baseU, lastU)⟩
        pickResult := none
        testPresent := true
        updateOutcome := upd }).statusWritten =
      some ⟨[fullSubnetStatusMsg], true, "", 0, none⟩
    ∧ (processNetworkAttachment ns name
      { att := some ⟨uid, rv, snName, ⟨errs0, cont0, "", 0, none⟩⟩
        subnetLookup := SubnetLookup.found ⟨suid, vni, true, [], some (baseU, lastU)⟩
        pickResult := none
        testPresent := true
        updateOutcome := upd }).err ≠ none := by
  simp [processNetworkAttachment, analyzeAndRelease, analyzeLocksPhase,
    chooseAndRelease, runDeletes, pickAndLockAddress, createLoop,
    updateNAStatus, hmsg]
  cases upd <;> simp

/-- Witness for C3. -/
theorem ipam_full_subnet_reconcile_witness :
    (processNetworkAttachment "ns" "na"
      { att := some ⟨"u1", "10", "sn", ⟨[], false, "", 0, none⟩⟩
        subnetLookup := SubnetLookup.found ⟨"su", 7, true, [], some (100, 103)⟩
        pickResult := none
        testPresent := true
        updateOutcome := UpdateOutcome.ok "11" }).statusWritten =
      some ⟨[fullSubnetStatusMsg], true, "", 0, none⟩ :=
  (ipam_full_subnet_reconcile "ns" "na" "u1" "10" "sn" "su" 7 100 103 [] false
    (UpdateOutcome.ok "11") (by decide)).1

/-- C4: when the IPLock create fails with `AlreadyExists`, the reconciler
fetches the existing lock; if its controller owner reference carries this
attachment's name and UID the lock is adopted and the reconcile proceeds as a
success (nil error, the adopted lock's UID and address written to status);
otherwise a non-nil (transient) error is returned, and in neither case is the
picked address released from the VNI address cache. -/
theorem ipam_already_exists (ns name uid rv snName suid on2 ou lu newRV : String)
    (vni baseU lastU ipU t : Nat) :
    ((on2 = name ∧ ou = uid) →
      (processNetworkAttachment ns name (ipamPickEnv uid rv snName suid vni baseU lastU
          (some ipU) [CreateOutcome.alreadyExists (GetLockOutcome.ok on2 ou lu t)]
          (UpdateOutcome.ok newRV))).err = none
      ∧ (processNetworkAttachment ns name (ipamPickEnv uid rv snName suid vni baseU lastU
          (some ipU) [CreateOutcome.alreadyExists (GetLockOutcome.ok on2 ou lu t)]
          (UpdateOutcome.ok newRV))).statusWritten =
            some ⟨[], false, lu, vni, some ipU⟩
      ∧ (processNetworkAttachment ns name (ipamPickEnv uid rv snName suid vni baseU lastU
          (some ipU) [CreateOutcome.alreadyExists (GetLockOutcome.ok on2 ou lu t)]
          (UpdateOutcome.ok newRV))).releasedAddress = false)
    ∧ (¬ (on2 = name ∧ ou = uid) →
      (processNetworkAttachment ns name (ipamPickEnv uid rv snName suid vni baseU lastU
          (some ipU) [CreateOutcome.alreadyExists (GetLockOutcome.ok on2 ou lu t)]
          (UpdateOutcome.ok newRV))).err = some GoErr.cacheIncoherence
      ∧ (processNetworkAttachment ns name (ipamPickEnv uid rv snName suid vni baseU lastU
          (some ipU) [CreateOutcome.alreadyExists (GetLockOutcome.ok on2 ou lu t)]
          (UpdateOutcome.ok newRV))).releasedAddress = false
      ∧ (processNetworkAttachment ns name (ipamPickEnv uid rv snName suid vni baseU lastU
          (some ipU) [CreateOutcome.alreadyExists (GetLockOutcome.ok on2 ou lu t)]
          (UpdateOutcome.ok newRV))).updateCalled = false) := by
  constructor
  · intro h
    refine ⟨?_, ?_, ?_⟩ <;>
      simp [processNetworkAttachment, ipamPickEnv, analyzeAndRelease,
        analyzeLocksPhase, chooseAndRelease, runDeletes, pickAndLockAddress,
        createLoop, updateNAStatus, h.1, h.2]
  · intro h
    refine ⟨?_, ?_, ?_⟩ <;>
      simp [processNetworkAttachment, ipamPickEnv, analyzeAndRelease,
        analyzeLocksPhase, chooseAndRelease, runDeletes, pickAndLockAddress,
        createLoop, updateNAStatus, h]

/-- Witness for C4 (adoption case at concrete inputs). -/
theorem ipam_already_exists_witness :
    (processNetworkAttachment "ns" "na" (ipamPickEnv "u1" "10" "sn" "su" 7 100 103
        (some 101) [CreateOutcome.alreadyExists (GetLockOutcome.ok "na" "u1" "lu" 3)]
        (UpdateOutcome.ok "11"))).err = none :=
  ((ipam_already_exists "ns" "na" "u1" "10" "sn" "su" "na" "u1" "lu" "11"
    7 100 103 101 3).1 (by exact ⟨rfl, rfl⟩)).1

/-- C5: when the IPLock create fails with an `Invalid` (permanent) error the
reconciler releases the picked address from the cache and returns nil — the
key is Forgotten, not requeued, the failure treated like success; for any
other create error (neither success nor `AlreadyExists`) the address is also
released but a non-nil error is returned, so the key is requeued with
backoff. -/
theorem ipam_create_error_paths (ns name uid rv snName suid newRV : String)
    (vni baseU lastU ipU : Nat) :
    (processNetworkAttachment ns name (ipamPickEnv uid rv snName suid vni baseU lastU
        (some ipU) [CreateOutcome.invalidError] (UpdateOutcome.ok newRV))).err = none
    ∧ (processNetworkAttachment ns name (ipamPickEnv uid rv snName suid vni baseU lastU
        (some ipU) [CreateOutcome.invalidError] (UpdateOutcome.ok newRV))).releasedAddress = true
    ∧ processQueueItemDisposition (processNetworkAttachment ns name
        (ipamPickEnv uid rv snName suid vni baseU lastU
          (some ipU) [CreateOutcome.invalidError] (UpdateOutcome.ok newRV))).err
      = QueueDisposition.forget
    ∧ (processNetworkAttachment ns name (ipamPickEnv uid rv snName suid vni baseU lastU
        (some ipU) [CreateOutcome.otherError] (UpdateOutcome.ok newRV))).err
      = some GoErr.createFailed
    ∧ (processNetworkAttachment ns name (ipamPickEnv uid rv snName suid vni baseU lastU
        (some ipU) [CreateOutcome.otherError] (UpdateOutcome.ok newRV))).releasedAddress = true
    ∧ processQueueItemDisposition (processNetworkAttachment ns name
        (ipamPickEnv uid rv snName suid vni baseU lastU
          (some ipU) [CreateOutcome.otherError] (UpdateOutcome.ok newRV))).err
      = QueueDisposition.addRateLimited := by
  refine ⟨?_, ?_, ?_, ?_, ?_, ?_⟩ <;>
    simp [processNetworkAttachment, ipamPickEnv, analyzeAndRelease,
      analyzeLocksPhase, chooseAndRelease, runDeletes, pickAndLockAddress,
      createLoop, updateNAStatus, processQueueItemDisposition]

/-- Witness for C5. -/
theorem ipam_create_error_paths_witness :
    (processNetworkAttachment "ns" "na" (ipamPickEnv "u1" "10" "sn" "su" 7 100 103
        (some 101) [CreateOutcome.invalidError] (UpdateOutcome.ok "11"))).releasedAddress
      = true :=
  (ipam_create_error_paths "ns" "na" "u1" "10" "sn" "su" "11" 7 100 103 101).2.1

/-- C7: (record) after a status update that succeeds with no status errors,
the bookkeeping records `(anticipatingRV = old RV, anticipatedRV = new RV,
anticipationSubnetUID, anticipatedIPv4)`; (skip) a subsequent reconcile that
sees the attachment at either recorded ResourceVersion with the same subnet
UID, and either no usable lock or a usable lock whose address equals the
anticipated one, returns nil without issuing any API write (no lock delete,
no lock create, no status update) and leaves the bookkeeping unchanged;
(reset) a reconcile seeing any other ResourceVersion, or a different subnet
UID, zeroes all four anticipation fields. -/
theorem ipam_anticipation (ns name uid rv rv0 rv1 snName suid asuid lns lname lkuid lu newRV : String)
    (vni baseU lastU ipU t : Nat) :
    ((processNetworkAttachment ns name (ipamPickEnv uid rv snName suid vni baseU lastU
        (some ipU) [CreateOutcome.created lu t] (UpdateOutcome.ok newRV))).nadat
      = some ⟨some ipU, rv, newRV, suid, false⟩)
    ∧ (rv = rv0 ∨ rv = rv1 →
      processNetworkAttachment ns name (ipamAnticipationEnv uid rv snName suid vni baseU lastU
          (some ⟨some ipU, rv0, rv1, suid, false⟩) [])
        = { err := none, nadat := some ⟨some ipU, rv0, rv1, suid, false⟩ })
    ∧ (rv = rv0 ∨ rv = rv1 → baseU ≤ ipU → ipU ≤ lastU → lkuid ≠ "" →
      processNetworkAttachment ns name (ipamAnticipationEnv uid rv snName suid vni baseU lastU
          (some ⟨some ipU, rv0, rv1, suid, false⟩)
          [⟨some ⟨lns, lname, vni, ipU, lkuid, t, true⟩, name, uid⟩])
        = { err := none, nadat := some ⟨some ipU, rv0, rv1, suid, false⟩ })
    ∧ ((rv0 ≠ rv ∧ rv1 ≠ rv) ∨ asuid ≠ suid →
      (processNetworkAttachment ns name (ipamAnticipationEnv uid rv snName suid vni baseU lastU
          (some ⟨some ipU, rv0, rv1, asuid, false⟩) [])).nadat
        = some ⟨none, "", "", "", true⟩) := by
  refine ⟨?_, ?_, ?_, ?_⟩
  · simp [processNetworkAttachment, ipamPickEnv, analyzeAndRelease,
      analyzeLocksPhase, chooseAndRelease, runDeletes, pickAndLockAddress,
      createLoop, updateNAStatus]
  · intro hrv
    rcases hrv with h | h <;> subst h <;>
      simp [processNetworkAttachment, ipamAnticipationEnv, analyzeAndRelease,
        analyzeLocksPhase, chooseAndRelease, runDeletes, updateNAStatus]
  · intro hrv hb hl hlk
    rcases hrv with h | h <;> subst h <;>
      simp [processNetworkAttachment, ipamAnticipationEnv, analyzeAndRelease,
        analyzeLocksPhase, considerLock, chooseAndRelease, runDeletes,
        ParsedLockList.Best, ParsedLockList.RemFunc, ParsedLockList.AddFunc,
        ParsedLockList.AddListFunc, ParsedLock.Equal, updateNAStatus,
        Nat.not_lt.mpr hb, Nat.not_lt.mpr hl, hlk]
  · intro hrv
    simp [processNetworkAttachment, ipamAnticipationEnv, analyzeAndRelease,
      analyzeLocksPhase, chooseAndRelease, runDeletes, pickAndLockAddress,
      updateNAStatus]
    rcases hrv with ⟨h1, h2⟩ | h1
    · simp [h1, h2]
      split <;> rfl
    · simp [h1]
      split <;> rfl

/-- Witness for C7 (skip case at the anticipating ResourceVersion). -/
theorem ipam_anticipation_witness :
    processNetworkAttachment "ns" "na" (ipamAnticipationEnv "u1" "9" "sn" "su" 7 100 103
        (some ⟨some 101, "9", "10", "su", false⟩) [])
      = { err := none, nadat := some ⟨some 101, "9", "10", "su", false⟩ } :=
  (ipam_anticipation "ns" "na" "u1" "9" "9" "10" "sn" "su" "su" "" "" "x" "" ""
    7 100 103 101 0).2.1 (Or.inl rfl)

/-! ## Connection Agent virtual-network state (stage-1 / stage-2 tables)

Maps are modelled as functions with `Option` (or empty-list) defaults; a key
mapping to `none`/`[]` models its absence from the Go map.  Closing a remote
informer's stop channel is recorded in the `closedStopChannels` event list
(the Go channel object itself disappears with its stage-2 entry).  Go map
iteration order is unspecified, so conclusions about the re-queued
attachments are membership statements. -/

/-- A namespaced name: (namespace, name). -/
abbrev NSN := String × String

/-- Pointwise update of a function map. -/
def updFun {α β : Type} [DecidableEq α] (f : α → β) (a : α) (b : β) : α → β :=
  fun x => if x = a then b else f x

/-- The modelled part of Go `stage1VirtualNetworkState`: the names of remote
NetworkAttachments recorded in the virtual network (the relevance-trigger
metrics metadata is omitted). -/
structure S1VNState where
  remoteAtts : List String
  deriving DecidableEq, Repr

/-- The modelled part of Go `stage2VirtualNetworkState`: the virtual
network's namespace and the names of its local NetworkAttachments (the
informer handle and stop channel are modelled through `closedStopChannels`). -/
structure S2VNState where
  ns : String
  localAtts : List String
  deriving DecidableEq, Repr

/-- The Connection Agent state the claims touch: the stage-2 tables
(`localAttToS2VNI`, `s2VNState`), the stage-1 tables (`s1VNState`,
`attToVNIs`), the workqueue (append-only here; dedup does not affect
membership) and the stop-channel close events. -/
structure CAState where
  localAttToS2VNI : NSN → Option Nat
  s2VNState : Nat → Option S2VNState
  s1VNState : Nat → Option S1VNState
  attToVNIs : NSN → List Nat
  queue : List NSN
  closedStopChannels : List Nat

/-- Go `ConnectionAgent.clearStage1VNState`: deletes the stage-1 entry for
`vni`, and for every remote attachment recorded there removes `vni` from its
`attToVNIs` entry (dropping the entry when it becomes empty) and enqueues its
namespaced name. -/
def clearStage1VNState (st : CAState) (vni : Nat) (ns : String) : CAState :=
  match st.s1VNState vni with
  | none => st
  | some s1vns =>
    let st1 := { st with s1VNState := updFun st.s1VNState vni none }
    s1vns.remoteAtts.foldl
      (fun acc nm =>
        let nsn : NSN := (ns, nm)
        { acc with
          attToVNIs := updFun acc.attToVNIs nsn ((acc.attToVNIs nsn).erase vni)
          queue := acc.queue ++ [nsn] })
      st1

/-- Go `ConnectionAgent.removeLocalAttFromS2VNState`: removes the local
attachment from its stage-2 entry and from `localAttToS2VNI`; when that was
the last local attachment of the VNI, deletes the stage-2 entry, closes the
remote informer's stop channel and clears the stage-1 state. -/
def removeLocalAttFromS2VNState (st : CAState) (att : NSN) (vni : Nat) :
    CAState :=
  match st.s2VNState vni with
  | none => st
  | some oldS2 =>
    let newAtts := oldS2.localAtts.erase att.2
    let st1 := { st with
      s2VNState := updFun st.s2VNState vni (some { oldS2 with localAtts := newAtts })
      localAttToS2VNI := updFun st.localAttToS2VNI att none }
    if newAtts.isEmpty then
      let st2 := { st1 with
        s2VNState := updFun st1.s2VNState vni none
        closedStopChannels := st1.closedStopChannels ++ [vni] }
      clearStage1VNState st2 vni oldS2.ns
    else st1

lemma clearS1_fold_spec (ns : String) (vni : Nat) (names : List String) :
    ∀ st : CAState,
    (names.foldl
        (fun acc nm =>
          let nsn : NSN := (ns, nm)
          { acc with
            attToVNIs := updFun acc.attToVNIs nsn ((acc.attToVNIs nsn).erase vni)
            queue := acc.queue ++ [nsn] })
        st).s1VNState = st.s1VNState
    ∧ (names.foldl
        (fun acc nm =>
          let nsn : NSN := (ns, nm)
          { acc with
            attToVNIs := updFun acc.attToVNIs nsn ((acc.attToVNIs nsn).erase vni)
            queue := acc.queue ++ [nsn] })
        st).s2VNState = st.s2VNState
    ∧ (names.foldl
        (fun acc nm =>
          let nsn : NSN := (ns, nm)
          { acc with
            attToVNIs := updFun acc.attToVNIs nsn ((acc.attToVNIs nsn).erase vni)
            queue := acc.queue ++ [nsn] })
        st).closedStopChannels = st.closedStopChannels
    ∧ (names.foldl
        (fun acc nm =>
          let nsn : NSN := (ns, nm)
          { acc with
            attToVNIs := updFun acc.attToVNIs nsn ((acc.attToVNIs nsn).erase vni)
            queue := acc.queue ++ [nsn] })
        st).localAttToS2VNI = st.localAttToS2VNI
    ∧ (names.foldl
        (fun acc nm =>
          let nsn : NSN := (ns, nm)
          { acc with
            attToVNIs := updFun acc.attToVNIs nsn ((acc.attToVNIs nsn).erase vni)
            queue := acc.queue ++ [nsn] })
        st).queue = st.queue ++ names.map (fun nm => (ns, nm)) := by
  induction names with
  | nil => intro st; simp
  | cons nm rest ih =>
    intro st
    rw [List.foldl_cons]
    obtain ⟨h1, h2, h3, h4, h5⟩ := ih
      { st with
        attToVNIs := updFun st.attToVNIs (ns, nm) ((st.attToVNIs (ns, nm)).erase vni)
        queue := st.queue ++ [(ns, nm)] }
    refine ⟨h1, h2, h3, h4, ?_⟩
    rw [h5]
    simp

/-- C8: removing a local attachment from its VNI's stage-2 state: when it was
the last local attachment recorded at that VNI, the stage-2 entry is deleted,
the remote informer's stop channel is closed, the stage-1 entry is cleared,
every remote attachment that was recorded in the VNI is re-enqueued on the
workqueue, and the attachment's stage-2 routing entry is gone; when other
local attachments remain, the stage-2 entry survives (only this attachment
removed) and no channel is closed, no stage-1 state is touched and nothing is
enqueued — so a stage-2 entry exists exactly as long as some local attachment
is recorded at the VNI. -/
theorem ca_relevance_teardown (st : CAState) (att : NSN) (vni : Nat)
    (s2s : S2VNState) (s1s : S1VNState)
    (hs2 : st.s2VNState vni = some s2s)
    (hs1 : st.s1VNState vni = some s1s) :
    (s2s.localAtts.erase att.2 = [] →
      (removeLocalAttFromS2VNState st att vni).s2VNState vni = none
      ∧ vni ∈ (removeLocalAttFromS2VNState st att vni).closedStopChannels
      ∧ (removeLocalAttFromS2VNState st att vni).s1VNState vni = none
      ∧ (∀ nm ∈ s1s.remoteAtts,
          (s2s.ns, nm) ∈ (removeLocalAttFromS2VNState st att vni).queue)
      ∧ (removeLocalAttFromS2VNState st att vni).localAttToS2VNI att = none)
    ∧ (s2s.localAtts.erase att.2 ≠ [] →
      (removeLocalAttFromS2VNState st att vni).s2VNState vni
          = some { s2s with localAtts := s2s.localAtts.erase att.2 }
      ∧ (removeLocalAttFromS2VNState st att vni).closedStopChannels
          = st.closedStopChannels
      ∧ (removeLocalAttFromS2VNState st att vni).s1VNState = st.s1VNState
      ∧ (removeLocalAttFromS2VNState st att vni).queue = st.queue
      ∧ (removeLocalAttFromS2VNState st att vni).localAttToS2VNI att = none) := by
  constructor
  · intro hlast
    rw [removeLocalAttFromS2VNState, hs2]
    simp only [hlast, List.isEmpty_nil, if_pos]
    rw [clearStage1VNState]
    simp only [updFun]
    rw [hs1]
    obtain ⟨h1, h2, h3, h4, h5⟩ := clearS1_fold_spec s2s.ns vni s1s.remoteAtts
      { st with
        s2VNState := updFun
          (updFun st.s2VNState vni (some { s2s with localAtts := [] })) vni none
        localAttToS2VNI := updFun st.localAttToS2VNI att none
        closedStopChannels := st.closedStopChannels ++ [vni]
        s1VNState := updFun st.s1VNState vni none }
    refine ⟨?_, ?_, ?_, ?_, ?_⟩
    · rw [h2]
      simp [updFun]
    · rw [h3]
      simp
    · rw [h1]
      simp [updFun]
    · intro nm hnm
      rw [h5]
      simp only [List.mem_append]
      right
      exact List.mem_map_of_mem _ hnm
    · rw [h4]
      simp [updFun]
  · intro hrest
    rw [removeLocalAttFromS2VNState, hs2]
    have : (s2s.localAtts.erase att.2).isEmpty = false := by
      cases h : s2s.localAtts.erase att.2 with
      | nil => exact absurd h hrest
      | cons a l => simp
    simp only [this, Bool.false_eq_true, if_false]
    simp [updFun]

/-- A concrete agent state with one local and two remote attachments at
VNI 9. -/
def caState0 : CAState :=
  { localAttToS2VNI := fun nsn => if nsn = ("vn1", "a1") then some 9 else none
    s2VNState := fun v => if v = 9 then some ⟨"vn1", ["a1"]⟩ else none
    s1VNState := fun v => if v = 9 then some ⟨["r1", "r2"]⟩ else none
    attToVNIs := fun _ => []
    queue := []
    closedStopChannels := [] }

/-- Witness for C8: removing the last local attachment of VNI 9 deletes the
stage-2 entry, closes the stop channel and re-queues remote attachment r1. -/
theorem ca_relevance_teardown_witness :
    (removeLocalAttFromS2VNState caState0 ("vn1", "a1") 9).s2VNState 9 = none
    ∧ 9 ∈ (removeLocalAttFromS2VNState caState0 ("vn1", "a1") 9).closedStopChannels
    ∧ ("vn1", "r1") ∈ (removeLocalAttFromS2VNState caState0 ("vn1", "a1") 9).queue := by
  have h := (ca_relevance_teardown caState0 ("vn1", "a1") 9 ⟨"vn1", ["a1"]⟩
    ⟨["r1", "r2"]⟩ rfl rfl).1 (by decide)
  exact ⟨h.1, h.2.1, h.2.2.2.1 "r1" (by decide)⟩
